import Mathlib

/-!
Verification of the epaxos benchmark client (Go sources under src/).

The development shallowly embeds the data model and the pure logic of
the client: the version tie-break comparison from kvproto, the ABD
transaction construction, the ABD response collector state machine, the
fast-path response collector, the pacing arithmetic and the workload key
generation.  Machine integers (int64, int32, int) are modelled as Int;
the claims settled here are order-theoretic or stay far from the 64-bit
overflow boundary, where Int agrees with the source semantics.  Go maps
with zero defaults become total functions with default 0, and the Go
slice writes into the pre-sized latency array become an append-only list
of samples, the write index of the j-th sample being j.

Definitions come first, theorems after.
-/

namespace Kvproto

/-- Operation kind of a kvproto command: NONE, GET or PUT (kvproto.go). -/
inductive Operation where
  | NONE
  | GET
  | PUT
deriving DecidableEq, Repr

/-- Version from kvproto.go: serverId, threadId, timestamp and a random
tag.  The int32/int64 fields are modelled as Int. -/
structure Version where
  ServerId : Int
  ThreadId : Int
  Ts : Int
  R : Int
deriving DecidableEq, Repr

/-- Direct transcription of Version.LargerThan from kvproto.go: four
boolean terms t1..t4 combined by disjunction. -/
def Version.LargerThan (lhs rhs : Version) : Bool :=
  let l1 : Bool := lhs.Ts == rhs.Ts
  let l2 : Bool := lhs.R == rhs.R
  let l3 : Bool := lhs.ServerId == rhs.ServerId
  let t1 : Bool := decide (lhs.Ts > rhs.Ts)
  let t2 : Bool := l1 && decide (lhs.R > rhs.R)
  let t3 : Bool := l1 && l2 && decide (lhs.ServerId > rhs.ServerId)
  let t4 : Bool := l1 && l2 && l3 && decide (lhs.ThreadId > rhs.ThreadId)
  t1 || t2 || t3 || t4

/-- Command from kvproto.go: an operation kind, a key and a value
(Key and Value are int64, modelled as Int). -/
structure Command where
  Op : Operation
  K : Int
  Val : Int
deriving DecidableEq, Repr

/-- Transaction from kvproto.go: an ordered command sequence, the
read-only flag (uint8, modelled as Nat), submission timestamp and a
transaction id. -/
structure Transaction where
  Commands : List Command
  ReadOnly : Nat
  Ts : Int
  TID : Int
deriving DecidableEq, Repr

/-- Response from kvproto.go: transaction id, echoed submission
timestamp, acknowledged operation count (int, modelled as Int),
returned values, fast/slow flag and the opaque watermark byte. -/
structure Response where
  TID : Int
  Ts : Int
  Size : Int
  Vals : List Int
  IsFast : Nat
  IsWater : Nat
deriving DecidableEq, Repr

end Kvproto

namespace Client

open Kvproto

/-- Comparison handed to sort.Slice in abdClient (client.go:255-257):
commands compare by key with the less-than relation; as a Bool
less-or-equal relation for mergeSort this is the reflexive closure the
Go sort establishes between consecutive elements. -/
def cmdKeyLe (a b : Command) : Bool :=
  decide (a.K ≤ b.K)

/-- Inner batch-construction loop of abdClient (client.go:235-246).
The mutable cmd struct is threaded through as prev: a GET keeps the
previously assigned value, a PUT draws a fresh value vf i.  kArr i is
kArray[clientId*txnNum+i] with clientId = 0, rArr i is rArray[i]. -/
def buildCommands (kArr : Nat → Int) (rArr : Nat → Bool) (vf : Nat → Int) :
    Nat → Nat → Command → List Command
  | _, 0, _ => []
  | i, bNum + 1, prev =>
    let c : Command :=
      if rArr i then
        { prev with Op := Operation.GET, K := kArr i }
      else
        { Op := Operation.PUT, K := kArr i, Val := vf i }
    c :: buildCommands kArr rArr vf (i + 1) bNum c

/-- Transaction assembly in abdClient (client.go:232-262): build bNum
commands starting at index i0, set ReadOnly from rArray[i-1] where i
has advanced to i0+bNum, sort the commands by key, stamp timestamp and
TID (the operation index reached after the batch). -/
def mkAbdTxn (kArr : Nat → Int) (rArr : Nat → Bool) (vf : Nat → Int)
    (i0 bNum : Nat) (prev : Command) (ts : Int) : Transaction :=
  let cmds := buildCommands kArr rArr vf i0 bNum prev
  { Commands := List.mergeSort cmds cmdKeyLe
    ReadOnly := if rArr (i0 + bNum - 1) then 1 else 0
    Ts := ts
    TID := Int.ofNat (i0 + bNum) }

/-- Default initial value of the mutable cmd struct in abdClient
(client.go:217). -/
def cmd0 : Command :=
  { Op := Operation.PUT, K := 0, Val := 0 }

/-- Read flag pattern used by the C3 counterexample: operation 0 is a
write, operation 1 is a read. -/
def rArrMixed (i : Nat) : Bool :=
  i == 1

/-- Division of Go int64 values: truncation toward zero, which is
Int.tdiv on the mathematical integers. -/
def goDiv (a b : Int) : Int :=
  Int.tdiv a b

/-- Guard on the configured conflict percentage in main
(client.go:68-70): the run is aborted fatally exactly when the value
exceeds 100.  The lower bound is not checked. -/
def conflictsFatal (conflicts : Int) : Bool :=
  decide (conflicts > 100)

/-- Batch count computed by both issuers (client.go:219 and 335):
integer division of the request count by the batch size, plus one. -/
def batchNum (reqNum batchSize : Int) : Int :=
  goDiv reqNum batchSize + 1

/-- Pacing interval computed by both issuers (client.go:222 and 336):
benchmark duration times 1e9 nanoseconds divided by batchNum. -/
def batchInterval (T reqNum batchSize : Int) : Int :=
  goDiv (T * 1000000000) (batchNum reqNum batchSize)

/-- Pacing interval following the words of the spec for comparison:
duration times 1e9 divided by batchCount with batchCount equal to
requestCount / batchSize, without the +1 of the code. -/
def specBatchInterval (T reqNum batchSize : Int) : Int :=
  goDiv (T * 1000000000) (goDiv reqNum batchSize)

/-- Key choice of the uniform/conflict workload in main
(client.go:95-101): with a draw r below the conflict percentage the
hot key 42, otherwise startRange + 43 + i for operation index i. -/
def uniformKey (startRange conflicts r : Int) (i : Nat) : Int :=
  if r < conflicts then 42 else startRange + 43 + (i : Int)

/-- Non-conflict branch of uniformKey. -/
def nonConflictKey (startRange : Int) (i : Nat) : Int :=
  startRange + 43 + (i : Int)

/-- Collector state of getAbdResponse (client.go:269-324): acknowledged
count, cumulative latency, the latency samples in write order (the
j-th sample is the write LatArray[j]), the per-transaction-id running
acknowledgement totals (Go map with default 0), the sequence of
admission-unit releases in order (each entry the transaction id whose
batch completed), and the read and slow counters. -/
structure AbdState where
  ackNum : Int
  totalLat : Int
  lat : List Int
  respMap : Int → Int
  releases : List Int
  totalRead : Int
  totalSlow : Int

/-- Initial collector state: all counters zero, empty map and lists. -/
def initAbd : AbdState :=
  { ackNum := 0, totalLat := 0, lat := [], respMap := fun _ => 0,
    releases := [], totalRead := 0, totalSlow := 0 }

/-- One iteration of the getAbdResponse select loop on a decoded
response r observed at time now (client.go:297-318): add Size to the
acknowledged count and to the running total of the response's
transaction id, append Size identical latency samples now - Ts, add
(now - Ts) * Size to the cumulative latency, release one admission
unit when the updated running total equals batchSize, and update the
read/slow counters from Vals and IsFast. -/
def abdStep (batchSize : Int) (s : AbdState) (now : Int)
    (r : Response) : AbdState :=
  let newMap : Int → Int := fun t =>
    if t = r.TID then s.respMap t + r.Size else s.respMap t
  { ackNum := s.ackNum + r.Size
    totalLat := s.totalLat + (now - r.Ts) * r.Size
    lat := s.lat ++ List.replicate r.Size.toNat (now - r.Ts)
    respMap := newMap
    releases :=
      if newMap r.TID = batchSize then s.releases ++ [r.TID]
      else s.releases
    totalRead :=
      if 0 < r.Vals.length then s.totalRead + r.Size else s.totalRead
    totalSlow :=
      if 0 < r.Vals.length ∧ r.IsFast = 0 then s.totalSlow + r.Size
      else s.totalSlow }

/-- Run of the collector from a given state over a stream of decoded
responses, each paired with its observation time. -/
def processAbdFrom (batchSize : Int) (init : AbdState)
    (rs : List (Int × Response)) : AbdState :=
  rs.foldl (fun s p => abdStep batchSize s p.1 p.2) init

/-- Run of the collector from the initial state. -/
def processAbd (batchSize : Int) (rs : List (Int × Response)) :
    AbdState :=
  processAbdFrom batchSize initAbd rs

/-- Total acknowledged operation count carried by the responses of a
stream that belong to transaction id t. -/
def sumFor (t : Int) (rs : List (Int × Response)) : Int :=
  (rs.map (fun p => if p.2.TID = t then p.2.Size else 0)).sum

/-- Total size field over a whole response stream. -/
def sumSize (rs : List (Int × Response)) : Int :=
  (rs.map (fun p => p.2.Size)).sum

/-- Number of latency samples a response stream makes the collector
write (each response of size s contributes max(0,s) samples). -/
def totalAbdSamples (rs : List (Int × Response)) : Nat :=
  (rs.map (fun p => p.2.Size.toNat)).sum

/-- First fragment of the C2 witness scenario: transaction 7
acknowledges two operations. -/
def respW1 : Response :=
  { TID := 7, Ts := 3, Size := 2, Vals := [], IsFast := 1, IsWater := 0 }

/-- Second fragment of the C2 witness scenario: the remaining two
operations of transaction 7. -/
def respW2 : Response :=
  { TID := 7, Ts := 4, Size := 2, Vals := [], IsFast := 1, IsWater := 0 }

/-- Witness response stream: two fragments of size 2 for transaction 7
with batch size 4. -/
def rsW : List (Int × Response) :=
  [(10, respW1), (12, respW2)]

/-- Collector state of readFastEpaxosResponse (client.go:376-410):
acknowledged count, cumulative latency and the latency samples in
write order. -/
structure EpaxosState where
  ackNum : Int
  totalLat : Int
  lat : List Int

/-- Initial fast-path collector state. -/
def initEpaxos : EpaxosState :=
  { ackNum := 0, totalLat := 0, lat := [] }

/-- One decode attempt of the inner reply loop (client.go:391-403):
a failed Unmarshal (none) is logged and skipped via continue, leaving
the state unchanged; a successful decode observed at time now with
echoed timestamp ts records one acknowledgement and one latency sample
now - ts. -/
def epaxosStep (s : EpaxosState) (d : Option (Int × Int)) : EpaxosState :=
  match d with
  | none => s
  | some (now, ts) =>
    { ackNum := s.ackNum + 1
      totalLat := s.totalLat + (now - ts)
      lat := s.lat ++ [now - ts] }

/-- Run of the fast-path collector from a given state over a sequence
of decode attempts. -/
def processEpaxosFrom (init : EpaxosState)
    (ds : List (Option (Int × Int))) : EpaxosState :=
  ds.foldl epaxosStep init

/-- Run of the fast-path collector from the initial state. -/
def processEpaxos (ds : List (Option (Int × Int))) : EpaxosState :=
  processEpaxosFrom initEpaxos ds

end Client

namespace Kvproto

/-- Unfolding of LargerThan into a propositional lexicographic
comparison of (Ts, R, ServerId, ThreadId). -/
theorem Version.largerThan_iff (a b : Version) :
    a.LargerThan b = true ↔
      (a.Ts > b.Ts ∨
        (a.Ts = b.Ts ∧ (a.R > b.R ∨
          (a.R = b.R ∧ (a.ServerId > b.ServerId ∨
            (a.ServerId = b.ServerId ∧ a.ThreadId > b.ThreadId)))))) := by
  simp only [Version.LargerThan, Bool.or_eq_true, Bool.and_eq_true,
    decide_eq_true_eq, beq_iff_eq]
  omega

/-- Distinct versions differ in at least one of the four fields. -/
theorem Version.ne_iff (a b : Version) :
    a ≠ b ↔ ¬ (a.Ts = b.Ts ∧ a.R = b.R ∧ a.ServerId = b.ServerId ∧
      a.ThreadId = b.ThreadId) := by
  obtain ⟨a1, a2, a3, a4⟩ := a
  obtain ⟨b1, b2, b3, b4⟩ := b
  simp only [Version.mk.injEq, ne_eq]
  tauto

/-- C1: Version.LargerThan is irreflexive, and on distinct versions
exactly one direction holds (trichotomy of the strict lexicographic
order over (Ts, R, ServerId, ThreadId)), and the relation is
transitive: a strict total order. -/
theorem largerThan_strict_total_order :
    (∀ v : Version, v.LargerThan v = false) ∧
    (∀ a b : Version, a ≠ b →
      (a.LargerThan b = true ↔ b.LargerThan a = false)) ∧
    (∀ a b c : Version, a.LargerThan b = true → b.LargerThan c = true →
      a.LargerThan c = true) := by
  refine ⟨?_, ?_, ?_⟩
  · intro v
    rw [← Bool.not_eq_true, Version.largerThan_iff]
    omega
  · intro a b hne
    rw [Version.ne_iff] at hne
    rw [Version.largerThan_iff, ← Bool.not_eq_true, Version.largerThan_iff]
    constructor
    · intro h
      omega
    · intro h
      omega
  · intro a b c hab hbc
    rw [Version.largerThan_iff] at hab hbc ⊢
    omega

/-- Witness for C1: a version with timestamp 5 and random tag 1 is
larger than one with timestamp 5 and random tag 0 (tie on timestamp
broken by the random tag) and not conversely, as an instance of the
trichotomy conjunct of the strict total order theorem. -/
theorem largerThan_strict_total_order_witness :
    (Version.mk 1 1 5 1).LargerThan (Version.mk 9 9 5 0) = true ∧
    (Version.mk 9 9 5 0).LargerThan (Version.mk 1 1 5 1) = false := by
  have h := largerThan_strict_total_order.2.1 (Version.mk 1 1 5 1)
    (Version.mk 9 9 5 0) (by decide)
  exact ⟨by decide, h.mp (by decide)⟩

end Kvproto

namespace Client

open Kvproto

/-- C3 counterexample: a two-command batch whose first operation is a
PUT and whose second is a GET gets ReadOnly = 1, because the code sets
the flag from the last command alone (rArray[i-1], client.go:248-252);
hence ReadOnly = 1 is not equivalent to every command being a GET. -/
theorem readOnly_not_all_get_cex :
    (mkAbdTxn (fun _ => 0) rArrMixed (fun _ => 5) 0 2 cmd0 0).ReadOnly = 1 ∧
    ¬ (∀ c ∈ (mkAbdTxn (fun _ => 0) rArrMixed (fun _ => 5) 0 2 cmd0
        0).Commands, c.Op = Operation.GET) := by
  have hmem : ({ Op := Operation.PUT, K := 0, Val := 5 } : Command) ∈
      (mkAbdTxn (fun _ => 0) rArrMixed (fun _ => 5) 0 2 cmd0 0).Commands := by
    simp only [mkAbdTxn, List.mem_mergeSort]
    simp [buildCommands, rArrMixed, cmd0]
  refine ⟨rfl, fun h => ?_⟩
  have := h _ hmem
  simp at this

/-- The batch-construction loop emits exactly bNum commands. -/
theorem buildCommands_length (kArr : Nat → Int) (rArr : Nat → Bool)
    (vf : Nat → Int) :
    ∀ (bNum i0 : Nat) (prev : Command),
      (buildCommands kArr rArr vf i0 bNum prev).length = bNum := by
  intro bNum
  induction bNum with
  | zero => intro i0 prev; rfl
  | succ m ih =>
    intro i0 prev
    simp only [buildCommands, List.length_cons]
    rw [ih]

/-- Operation kind of the j-th constructed command: GET exactly when
the read flag at index i0+j is set, PUT otherwise. -/
theorem buildCommands_op (kArr : Nat → Int) (rArr : Nat → Bool)
    (vf : Nat → Int) :
    ∀ (bNum i0 : Nat) (prev : Command) (j : Nat), j < bNum →
      ((buildCommands kArr rArr vf i0 bNum prev).getD j cmd0).Op
        = (if rArr (i0 + j) then Operation.GET else Operation.PUT) := by
  intro bNum
  induction bNum with
  | zero => intro i0 prev j hj; omega
  | succ m ih =>
    intro i0 prev j hj
    match j with
    | 0 =>
      simp only [buildCommands, List.getD_cons_zero]
      by_cases h : rArr i0 <;> simp [h]
    | Nat.succ j' =>
      have hj' : j' < m := by omega
      have heq := ih (i0 + 1) (if rArr i0 then
          { prev with Op := Operation.GET, K := kArr i0 }
        else
          { Op := Operation.PUT, K := kArr i0, Val := vf i0 }) j' hj'
      simp only [buildCommands, List.getD_cons_succ]
      rw [heq]
      have harith : i0 + 1 + j' = i0 + (j' + 1) := by omega
      rw [harith]

/-- C3 amended: for a non-empty batch the transaction's ReadOnly flag
is 1 exactly when the LAST command of the constructed batch is a GET
(rArray[i-1] in client.go:248); it does not require every command to
be a GET.  When the whole batch shares one classification (separate
mode) this coincides with the all-GET reading of the spec. -/
theorem readOnly_iff_last_command_get (kArr : Nat → Int)
    (rArr : Nat → Bool) (vf : Nat → Int) (i0 bNum : Nat) (prev : Command)
    (ts : Int) (h : 1 ≤ bNum) :
    ((mkAbdTxn kArr rArr vf i0 bNum prev ts).ReadOnly = 1 ↔
      ((buildCommands kArr rArr vf i0 bNum prev).getD (bNum - 1)
        cmd0).Op = Operation.GET) := by
  simp only [mkAbdTxn]
  rw [buildCommands_op kArr rArr vf bNum i0 prev (bNum - 1) (by omega)]
  have harith : i0 + (bNum - 1) = i0 + bNum - 1 := by omega
  rw [harith]
  by_cases hr : rArr (i0 + bNum - 1) <;> simp [hr]

/-- Witness for the amended C3 at a concrete mixed batch: the second
and last command is a GET, so ReadOnly = 1 even though the first
command is a PUT. -/
theorem readOnly_iff_last_command_get_witness :
    (mkAbdTxn (fun _ => 0) rArrMixed (fun _ => 5) 0 2 cmd0 0).ReadOnly
      = 1 :=
  (readOnly_iff_last_command_get (fun _ => 0) rArrMixed (fun _ => 5) 0 2
    cmd0 0 (by decide)).mpr (by decide)

/-- C4: the commands of every ABD transaction built from a non-empty
batch are sorted ascending by key when transmitted (sort.Slice on the
key in client.go:255-257). -/
theorem abdTxn_commands_sorted (kArr : Nat → Int) (rArr : Nat → Bool)
    (vf : Nat → Int) (i0 bNum : Nat) (prev : Command) (ts : Int)
    (h : 1 ≤ bNum) :
    (mkAbdTxn kArr rArr vf i0 bNum prev ts).Commands.Pairwise
      (fun a b => a.K ≤ b.K) := by
  have htrans : ∀ (a b c : Command), cmdKeyLe a b → cmdKeyLe b c →
      cmdKeyLe a c := by
    intro a b c hab hbc
    simp only [cmdKeyLe, decide_eq_true_eq] at hab hbc ⊢
    omega
  have htotal : ∀ (a b : Command), cmdKeyLe a b || cmdKeyLe b a := by
    intro a b
    simp only [cmdKeyLe, Bool.or_eq_true, decide_eq_true_eq]
    omega
  have hs := List.sorted_mergeSort htrans htotal
    (buildCommands kArr rArr vf i0 bNum prev)
  simp only [mkAbdTxn]
  exact hs.imp (fun hab => by
    simpa [cmdKeyLe, decide_eq_true_eq] using hab)

/-- Witness for C4: a concrete three-command batch with keys 5, 4, 3
comes out sorted ascending by key. -/
theorem abdTxn_commands_sorted_witness :
    (mkAbdTxn (fun i => (5 : Int) - i) (fun _ => false) (fun _ => 7) 0 3
      cmd0 0).Commands.Pairwise (fun a b => a.K ≤ b.K) :=
  abdTxn_commands_sorted (fun i => (5 : Int) - i) (fun _ => false)
    (fun _ => 7) 0 3 cmd0 0 (by decide)

/-- C5 evaluation at the failing input: a conflict percentage of -5 is
outside [0,100], yet the guard does not abort the run, contradicting
the guard message that the percentage must be between 0 and 100. -/
theorem conflicts_guard_misses_negative :
    conflictsFatal (-5) = false ∧ ((-5 : Int) < 0 ∨ (-5 : Int) > 100) := by
  decide

/-- C6 counterexample: at duration 1 s, one request and batch size one
the code computes 1e9/(1/1 + 1) = 500000000 ns, not the 1e9 ns of the
claimed formula duration*1e9/(requestCount/batchSize). -/
theorem batchInterval_formula_cex :
    batchInterval 1 1 1 ≠ specBatchInterval 1 1 1 := by
  decide

/-- C6 amended: the pacing interval equals
duration*1e9/(requestCount/batchSize + 1) — the code adds one to the
batch count, which also keeps the divisor positive — and the interval
is positive whenever that divisor does not exceed duration*1e9. -/
theorem batchInterval_formula_pos (T n bs : Int) (hT : 1 ≤ T)
    (hn : 1 ≤ n) (hbs : 1 ≤ bs)
    (hfit : batchNum n bs ≤ T * 1000000000) :
    batchInterval T n bs = goDiv (T * 1000000000) (goDiv n bs + 1) ∧
    0 < batchInterval T n bs := by
  refine ⟨rfl, ?_⟩
  have hq : 0 ≤ goDiv n bs := Int.tdiv_nonneg (by omega) (by omega)
  have hd : 0 < batchNum n bs := by
    simp only [batchNum]
    omega
  have ha : 0 ≤ T * 1000000000 := by positivity
  have hconv : batchInterval T n bs = (T * 1000000000) / batchNum n bs := by
    simp only [batchInterval, goDiv]
    exact Int.tdiv_eq_ediv ha (by omega)
  rw [hconv]
  have h1 : (1 : Int) ≤ (T * 1000000000) / batchNum n bs := by
    rw [Int.le_ediv_iff_mul_le hd]
    omega
  omega

/-- Witness for the amended C6: duration 10 s, five requests, batch
size two give interval 1e10/3 ns, which is positive. -/
theorem batchInterval_formula_pos_witness :
    batchInterval 10 5 2 = goDiv (10 * 1000000000) (goDiv 5 2 + 1) ∧
    0 < batchInterval 10 5 2 :=
  batchInterval_formula_pos 10 5 2 (by decide) (by decide) (by decide)
    (by decide)

/-- C8 counterexample: with a configured start offset of -1 the
non-conflict branch (draw 5, conflict percentage 0) produces the hot
key 42 at operation index 0, so a non-conflict key can equal the hot
key. -/
theorem uniformKey_hot_collision_cex :
    uniformKey (-1) 0 5 0 = 42 ∧ ¬ ((5 : Int) < 0) := by
  decide

/-- C8 amended: for a nonnegative configured start offset, the
non-conflict branch yields startRange + 43 + i, these keys are
pairwise distinct across operation indices, and none of them equals
the hot key 42.  A negative start offset can collide with the hot
key. -/
theorem uniformKey_distinct_avoid_hot (sr : Int) (hsr : 0 ≤ sr) :
    (∀ (c r : Int) (i : Nat), ¬ r < c →
      uniformKey sr c r i = nonConflictKey sr i) ∧
    (∀ i j : Nat, i ≠ j → nonConflictKey sr i ≠ nonConflictKey sr j) ∧
    (∀ i : Nat, nonConflictKey sr i ≠ 42) := by
  refine ⟨?_, ?_, ?_⟩
  · intro c r i hr
    simp [uniformKey, nonConflictKey, hr]
  · intro i j hij
    simp only [nonConflictKey, ne_eq]
    omega
  · intro i
    simp only [nonConflictKey, ne_eq]
    omega

/-- Witness for the amended C8 at start offset 0. -/
theorem uniformKey_distinct_avoid_hot_witness :
    (∀ (c r : Int) (i : Nat), ¬ r < c →
      uniformKey 0 c r i = nonConflictKey 0 i) ∧
    (∀ i j : Nat, i ≠ j → nonConflictKey 0 i ≠ nonConflictKey 0 j) ∧
    (∀ i : Nat, nonConflictKey 0 i ≠ 42) :=
  uniformKey_distinct_avoid_hot 0 (by decide)

theorem sumFor_nil (t : Int) : sumFor t [] = 0 := rfl

theorem sumFor_cons (t : Int) (p : Int × Response)
    (rs : List (Int × Response)) :
    sumFor t (p :: rs) =
      (if p.2.TID = t then p.2.Size else 0) + sumFor t rs := by
  simp [sumFor]

theorem sumFor_append (t : Int) (xs ys : List (Int × Response)) :
    sumFor t (xs ++ ys) = sumFor t xs + sumFor t ys := by
  simp [sumFor]

theorem sumFor_nonneg (t : Int) (rs : List (Int × Response))
    (h : ∀ p ∈ rs, 0 ≤ p.2.Size) : 0 ≤ sumFor t rs := by
  refine List.sum_nonneg ?_
  intro x hx
  obtain ⟨p, hp, rfl⟩ := List.mem_map.mp hx
  by_cases ht : p.2.TID = t
  · simpa [ht] using h p hp
  · simp [ht]

/-- Running per-transaction total after any run: the initial total plus
the sizes of the processed responses of that transaction id. -/
theorem processAbdFrom_respMap (B t : Int) :
    ∀ (rs : List (Int × Response)) (init : AbdState),
      (processAbdFrom B init rs).respMap t =
        init.respMap t + sumFor t rs := by
  intro rs
  induction rs with
  | nil => intro init; simp [processAbdFrom, sumFor_nil]
  | cons p rest ih =>
    intro init
    rw [show processAbdFrom B init (p :: rest) =
      processAbdFrom B (abdStep B init p.1 p.2) rest from rfl]
    rw [ih, sumFor_cons]
    have hstep : (abdStep B init p.1 p.2).respMap t =
        init.respMap t + (if p.2.TID = t then p.2.Size else 0) := by
      simp only [abdStep]
      by_cases ht : t = p.2.TID
      · simp [ht]
      · have ht2 : ¬ p.2.TID = t := fun hc => ht hc.symm
        simp [ht, ht2]
    rw [hstep]
    ring

/-- Effect of one collector step on the running total of any
transaction id. -/
theorem abdStep_respMap (B : Int) (s : AbdState) (now : Int)
    (r : Response) (t : Int) :
    (abdStep B s now r).respMap t =
      s.respMap t + (if r.TID = t then r.Size else 0) := by
  simp only [abdStep]
  by_cases ht : t = r.TID
  · simp [ht]
  · have ht2 : ¬ r.TID = t := fun hc => ht hc.symm
    simp [ht, ht2]

/-- Effect of one collector step on the release sequence: one release
of the response's transaction id exactly when the updated running
total equals batchSize. -/
theorem abdStep_releases (B : Int) (s : AbdState) (now : Int)
    (r : Response) :
    (abdStep B s now r).releases =
      if s.respMap r.TID + r.Size = B then s.releases ++ [r.TID]
      else s.releases := by
  simp [abdStep]

theorem count_append_singleton (l : List Int) (a t : Int) :
    (l ++ [a]).count t = l.count t + (if a = t then 1 else 0) := by
  by_cases h : a = t <;> simp [List.count_append, List.count_cons, h]

/-- Release bookkeeping over a run: starting from a state whose
running total for t is nonnegative and whose remaining stream keeps
the total within batchSize, the number of releases of t grows by one
exactly when the stream carries a positive amount for t that makes the
total land exactly on batchSize. -/
theorem processAbdFrom_count_releases (B : Int) (hB : 0 < B) (t : Int) :
    ∀ (rs : List (Int × Response)) (init : AbdState),
      (∀ p ∈ rs, 0 < p.2.Size) →
      0 ≤ init.respMap t →
      init.respMap t + sumFor t rs ≤ B →
      (processAbdFrom B init rs).releases.count t =
        init.releases.count t +
          (if 0 < sumFor t rs ∧ init.respMap t + sumFor t rs = B
           then 1 else 0) := by
  intro rs
  induction rs with
  | nil =>
    intro init hpos h0 hle
    simp [processAbdFrom, sumFor_nil]
  | cons p rest ih =>
    intro init hpos h0 hle
    have hposp : 0 < p.2.Size := hpos p (List.mem_cons_self p rest)
    have hposrest : ∀ q ∈ rest, 0 < q.2.Size := fun q hq =>
      hpos q (List.mem_cons_of_mem p hq)
    have hrestnn : 0 ≤ sumFor t rest :=
      sumFor_nonneg t rest (fun q hq => le_of_lt (hposrest q hq))
    rw [sumFor_cons] at hle
    have hs0 : 0 ≤ (abdStep B init p.1 p.2).respMap t := by
      rw [abdStep_respMap]
      split_ifs <;> omega
    have hsle : (abdStep B init p.1 p.2).respMap t + sumFor t rest ≤ B := by
      rw [abdStep_respMap]
      split_ifs at hle ⊢ <;> omega
    have hcount : (abdStep B init p.1 p.2).releases.count t =
        init.releases.count t +
          (if p.2.TID = t ∧ init.respMap t + p.2.Size = B then 1
           else 0) := by
      rw [abdStep_releases]
      by_cases ht : p.2.TID = t
      · subst ht
        by_cases hc : init.respMap p.2.TID + p.2.Size = B
        · rw [if_pos hc, count_append_singleton]
          simp [hc]
        · rw [if_neg hc]
          simp [hc]
      · by_cases hc : init.respMap p.2.TID + p.2.Size = B
        · rw [if_pos hc, count_append_singleton]
          simp [ht]
        · rw [if_neg hc]
          simp [ht]
    rw [show processAbdFrom B init (p :: rest) =
        processAbdFrom B (abdStep B init p.1 p.2) rest from rfl,
      ih (abdStep B init p.1 p.2) hposrest hs0 hsle, hcount,
      abdStep_respMap, sumFor_cons]
    split_ifs at hle ⊢ <;> omega

/-- C2: when every response carries a positive acknowledged count and
the acknowledged counts per transaction id over the whole stream stay
within batchSize (the responses are fragments of one issued batch),
then after any number k of processed responses the running total of
any transaction id t never exceeds batchSize, and the number of
admission-unit releases for t is exactly one if the running total has
reached batchSize and zero otherwise — the unit is released exactly
once, exactly at the step where the total first reaches batchSize. -/
theorem abd_release_exactly_once (B : Int) (rs : List (Int × Response))
    (hB : 0 < B) (hpos : ∀ p ∈ rs, 0 < p.2.Size)
    (hfrag : ∀ u : Int, sumFor u rs ≤ B) (t : Int) (k : Nat) :
    (processAbd B (rs.take k)).respMap t ≤ B ∧
    (processAbd B (rs.take k)).releases.count t =
      (if sumFor t (rs.take k) = B then 1 else 0) := by
  have hposk : ∀ p ∈ rs.take k, 0 < p.2.Size := fun p hp =>
    hpos p (List.mem_of_mem_take hp)
  have hdropnn : 0 ≤ sumFor t (rs.drop k) :=
    sumFor_nonneg t _ (fun p hp =>
      le_of_lt (hpos p (List.mem_of_mem_drop hp)))
  have hsplit : sumFor t (rs.take k) + sumFor t (rs.drop k)
      = sumFor t rs := by
    rw [← sumFor_append, List.take_append_drop]
  have htk : sumFor t (rs.take k) ≤ B := by
    have := hfrag t
    omega
  constructor
  · rw [processAbd, processAbdFrom_respMap]
    simpa [initAbd] using htk
  · rw [processAbd, processAbdFrom_count_releases B hB t (rs.take k)
      initAbd hposk (by simp [initAbd]) (by simpa [initAbd] using htk)]
    simp only [initAbd, List.count_nil, zero_add, Nat.zero_add]
    split_ifs <;> omega

/-- Witness for C2: with batch size 4, a first fragment of size 2 does
not release the admission unit (release count 0 after one response);
the second fragment of size 2 completes the batch and releases it
exactly once. -/
theorem abd_release_exactly_once_witness :
    (processAbd 4 (rsW.take 1)).releases.count 7 = 0 ∧
    (processAbd 4 (rsW.take 2)).releases.count 7 = 1 := by
  have hpos : ∀ p ∈ rsW, 0 < p.2.Size := by decide
  have hfrag : ∀ u : Int, sumFor u rsW ≤ 4 := by
    intro u
    simp only [rsW, respW1, respW2, sumFor, List.map_cons, List.map_nil,
      List.sum_cons, List.sum_nil]
    split_ifs <;> omega
  have h1 := (abd_release_exactly_once 4 rsW (by decide) hpos hfrag 7 1).2
  have h2 := (abd_release_exactly_once 4 rsW (by decide) hpos hfrag 7 2).2
  exact ⟨h1.trans (by decide), h2.trans (by decide)⟩

/-- C7: one collector step on a response of nonnegative size s observed
at time now adds s to the acknowledged count, appends exactly s
latency samples all equal to now minus the echoed timestamp, and adds
s times that latency to the cumulative latency. -/
theorem abd_latency_per_response (B : Int) (s : AbdState) (now : Int)
    (r : Response) (h : 0 ≤ r.Size) :
    (abdStep B s now r).ackNum = s.ackNum + r.Size ∧
    ((abdStep B s now r).lat.length : Int) = s.lat.length + r.Size ∧
    (abdStep B s now r).lat.drop s.lat.length
      = List.replicate r.Size.toNat (now - r.Ts) ∧
    (abdStep B s now r).totalLat = s.totalLat + r.Size * (now - r.Ts) := by
  refine ⟨rfl, ?_, ?_, ?_⟩
  · show ((s.lat ++ List.replicate r.Size.toNat (now - r.Ts)).length : Int)
      = s.lat.length + r.Size
    rw [List.length_append, List.length_replicate]
    push_cast [Int.toNat_of_nonneg h]
    ring
  · show (s.lat ++ List.replicate r.Size.toNat (now - r.Ts)).drop
      s.lat.length = List.replicate r.Size.toNat (now - r.Ts)
    exact List.drop_left s.lat _
  · show s.totalLat + (now - r.Ts) * r.Size
      = s.totalLat + r.Size * (now - r.Ts)
    ring

/-- Witness for C7 on a concrete size-2 response observed at time 10:
the step adds 2 acknowledgements, two identical samples of value 7 and
latency 14. -/
theorem abd_latency_per_response_witness :
    (abdStep 4 initAbd 10 respW1).ackNum = initAbd.ackNum + respW1.Size ∧
    ((abdStep 4 initAbd 10 respW1).lat.length : Int)
      = initAbd.lat.length + respW1.Size ∧
    (abdStep 4 initAbd 10 respW1).lat.drop initAbd.lat.length
      = List.replicate respW1.Size.toNat (10 - respW1.Ts) ∧
    (abdStep 4 initAbd 10 respW1).totalLat
      = initAbd.totalLat + respW1.Size * (10 - respW1.Ts) :=
  abd_latency_per_response 4 initAbd 10 respW1 (by decide)

/-- Accumulated effect of a fast-path collector run: the acknowledged
count and latency samples come exactly from the successfully decoded
replies, in order. -/
theorem processEpaxosFrom_acc (init : EpaxosState)
    (ds : List (Option (Int × Int))) :
    (processEpaxosFrom init ds).ackNum =
      init.ackNum + ((ds.filterMap id).length : Int) ∧
    (processEpaxosFrom init ds).lat =
      init.lat ++ (ds.filterMap id).map (fun p => p.1 - p.2) := by
  induction ds generalizing init with
  | nil => simp [processEpaxosFrom]
  | cons d rest ih =>
    match d with
    | none =>
      have h := ih init
      simpa [processEpaxosFrom, List.filterMap_cons] using h
    | some q =>
      have h := ih (epaxosStep init (some q))
      rw [show processEpaxosFrom init (some q :: rest)
          = processEpaxosFrom (epaxosStep init (some q)) rest from rfl]
      refine ⟨?_, ?_⟩
      · rw [h.1]
        simp [epaxosStep, List.filterMap_cons]
        ring
      · rw [h.2]
        simp [epaxosStep, List.filterMap_cons]

/-- C9: a decode failure in the fast-path collector skips exactly that
one reply — the state after a failed attempt followed by the rest of
the batch equals the state after the rest alone — and over any
sequence of attempts the acknowledged count and the latency samples
come exactly from the successfully decoded replies, in order, so the
remaining replies keep being decoded and the run never aborts. -/
theorem epaxos_decode_failure_skips :
    (∀ (init : EpaxosState) (rest : List (Option (Int × Int))),
      processEpaxosFrom init (none :: rest) = processEpaxosFrom init rest) ∧
    (∀ (init : EpaxosState) (ds : List (Option (Int × Int))),
      (processEpaxosFrom init ds).ackNum =
        init.ackNum + ((ds.filterMap id).length : Int) ∧
      (processEpaxosFrom init ds).lat =
        init.lat ++ (ds.filterMap id).map (fun p => p.1 - p.2)) :=
  ⟨fun _ _ => rfl, fun init ds => processEpaxosFrom_acc init ds⟩

/-- Total size over a response stream equals the number of samples the
stream generates, when sizes are nonnegative. -/
theorem sumSize_eq_totalAbdSamples (rs : List (Int × Response))
    (h : ∀ p ∈ rs, 0 ≤ p.2.Size) :
    sumSize rs = (totalAbdSamples rs : Int) := by
  induction rs with
  | nil => rfl
  | cons p rest ih =>
    have hp : 0 ≤ p.2.Size := h p (List.mem_cons_self p rest)
    have hrest := ih (fun q hq => h q (List.mem_cons_of_mem p hq))
    simp only [sumSize, totalAbdSamples, List.map_cons, List.sum_cons]
      at hrest ⊢
    push_cast [Int.toNat_of_nonneg hp] at hrest ⊢
    omega

/-- Acknowledged count of an ABD collector run. -/
theorem processAbdFrom_ackNum (B : Int) :
    ∀ (rs : List (Int × Response)) (init : AbdState),
      (processAbdFrom B init rs).ackNum = init.ackNum + sumSize rs := by
  intro rs
  induction rs with
  | nil => intro init; simp [processAbdFrom, sumSize]
  | cons p rest ih =>
    intro init
    rw [show processAbdFrom B init (p :: rest)
        = processAbdFrom B (abdStep B init p.1 p.2) rest from rfl, ih]
    simp only [abdStep, sumSize, List.map_cons, List.sum_cons]
    ring

/-- Number of latency samples written by an ABD collector run. -/
theorem processAbdFrom_lat_length (B : Int) :
    ∀ (rs : List (Int × Response)) (init : AbdState),
      (processAbdFrom B init rs).lat.length =
        init.lat.length + totalAbdSamples rs := by
  intro rs
  induction rs with
  | nil => intro init; simp [processAbdFrom, totalAbdSamples]
  | cons p rest ih =>
    intro init
    rw [show processAbdFrom B init (p :: rest)
        = processAbdFrom B (abdStep B init p.1 p.2) rest from rfl, ih]
    simp only [abdStep, totalAbdSamples, List.map_cons, List.sum_cons,
      List.length_append, List.length_replicate]
    omega

/-- C10: both collectors write the j-th latency sample at index j of
an array pre-sized to the configured request count N, so the number of
acknowledged operations equals the number of samples written (for the
ABD collector under nonnegative response sizes), and every write index
is within bounds exactly when that count stays at most N: a stream
acknowledging more than N operations makes some write out of
bounds. -/
theorem latency_write_bounds (B : Int) (rs : List (Int × Response))
    (hpos : ∀ p ∈ rs, 0 ≤ p.2.Size) (ds : List (Option (Int × Int)))
    (N : Nat) :
    (processAbd B rs).ackNum = ((processAbd B rs).lat.length : Int) ∧
    (processEpaxos ds).ackNum = ((processEpaxos ds).lat.length : Int) ∧
    ((∀ j ∈ List.range (processAbd B rs).lat.length, j < N) ↔
      (processAbd B rs).lat.length ≤ N) ∧
    ((∀ j ∈ List.range (processEpaxos ds).lat.length, j < N) ↔
      (processEpaxos ds).lat.length ≤ N) := by
  have hrange : ∀ (L : Nat), (∀ j ∈ List.range L, j < N) ↔ L ≤ N := by
    intro L
    constructor
    · intro h
      by_contra hc
      push_neg at hc
      exact absurd (h N (List.mem_range.mpr hc)) (lt_irrefl N)
    · intro h j hj
      exact lt_of_lt_of_le (List.mem_range.mp hj) h
  refine ⟨?_, ?_, hrange _, hrange _⟩
  · rw [processAbd, processAbdFrom_ackNum, processAbdFrom_lat_length,
      sumSize_eq_totalAbdSamples rs hpos]
    simp [initAbd]
  · have h := processEpaxosFrom_acc initEpaxos ds
    rw [processEpaxos, h.1, h.2]
    simp [initEpaxos]

/-- Witness for C10 on a concrete stream: one ABD response of size 2
and a fast-path batch with one success and one decode failure. -/
theorem latency_write_bounds_witness :
    (processAbd 4 [(10, respW1)]).ackNum
      = ((processAbd 4 [(10, respW1)]).lat.length : Int) ∧
    (processEpaxos [some (9, 4), none]).ackNum
      = ((processEpaxos [some (9, 4), none]).lat.length : Int) ∧
    ((∀ j ∈ List.range (processAbd 4 [(10, respW1)]).lat.length, j < 5) ↔
      (processAbd 4 [(10, respW1)]).lat.length ≤ 5) ∧
    ((∀ j ∈ List.range (processEpaxos [some (9, 4), none]).lat.length,
        j < 5) ↔
      (processEpaxos [some (9, 4), none]).lat.length ≤ 5) :=
  latency_write_bounds 4 [(10, respW1)] (by decide) [some (9, 4), none] 5

end Client
